import Mathlib

/-!
Verification of the sharded-apply machinery of
`src/alphafold3/model/components/mapping.py`.

The embedding models JAX arrays as rank-1 Lean lists (`Arr`), the mapped
axis being the single dimension (axis 0, the only axis exercised by the
properties of the specification).  Machine integers are modelled as `Int` with
Python floor division `Int.fdiv` and Python modulo `Int.emod` (both agree
with Python semantics for positive divisors).  The broadcast sentinel
`PROXY` of the source is the `Axis.proxy` constructor; integer axis
entries become `Axis.ax n`.  Fallible behaviour (a Python exception) is an
`Except.error` or a `none` result.
-/

namespace Mapping

/-- Rank-1 arrays: a JAX array restricted to its mapped dimension. -/
abbrev Arr (α : Type) := List α

/-- Per-leaf axis annotation after normalization: either the PROXY
broadcast sentinel or an integer axis (line 26 and line 51 of the
source).  For the rank-1 arrays of this embedding, the only meaningful
integer axis is 0. -/
inductive Axis where
  | proxy
  | ax (n : Nat)
deriving DecidableEq

/-- Embeds the list-level part of `_expand_axes` (lines 47-52): every
`None` entry of the flat axis list is replaced by the PROXY sentinel,
integer entries are kept. -/
def expand_axes (axes : List (Option Nat)) : List Axis :=
  axes.map fun a =>
    match a with
    | none => Axis.proxy
    | some n => Axis.ax n

/-- Axis normalization for a single output leaf (the wrapped function of
this embedding returns one array). -/
def expand_axes1 : Option Nat → Axis
  | none => Axis.proxy
  | some n => Axis.ax n

/-- Embeds `_maybe_get_size` (lines 40-44): `-1` for the PROXY sentinel,
otherwise the extent of the array along the mapped axis. -/
def maybe_get_size (arr : Arr α) : Axis → Int
  | Axis.proxy => -1
  | Axis.ax _ => (arr.length : Int)

/-- Embeds `jax.lax.dynamic_slice_in_dim` on a rank-1 operand: the start
index is clamped into `[0, length - size]` as in XLA, then `size`
elements are read. -/
def dynamic_slice_in_dim (arr : Arr α) (i : Int) (size : Nat) : Arr α :=
  (arr.drop (max 0 (min i ((arr.length : Int) - (size : Int)))).toNat).take size

/-- Embeds `_maybe_slice` (lines 31-37): PROXY-marked leaves pass through
unmodified, mapped leaves are sliced. -/
def maybe_slice (arr : Arr α) (i : Int) (size : Nat) : Axis → Arr α
  | Axis.proxy => arr
  | Axis.ax _ => dynamic_slice_in_dim arr i size

/-- Embeds `jax.lax.dynamic_update_slice_in_dim` on a rank-1 operand: the
start index is clamped into `[0, length - update length]` as in XLA, then
the update overwrites that range. -/
def dynamic_update_slice_in_dim (full upd : Arr α) (i : Int) : Arr α :=
  full.take (max 0 (min i ((full.length : Int) - (upd.length : Int)))).toNat ++ upd ++
    full.drop ((max 0 (min i ((full.length : Int) - (upd.length : Int)))).toNat + upd.length)

/-- Embeds line 144: `num_extra_shards = (in_size - 1) // shard_size`
with Python floor division. -/
def num_extra_shards (in_size shard_size : Int) : Int :=
  (in_size - 1).fdiv shard_size

/-- Embeds lines 147-148: `last_shard_size = in_size % shard_size`,
remapped to `shard_size` when the remainder is zero. -/
def last_shard_size (in_size shard_size : Int) : Int :=
  if in_size.emod shard_size = 0 then shard_size else in_size.emod shard_size

/-- Embeds `jnp.arange(0, stop, step)` for a positive step: the list
`[0, step, 2*step, ...]` of all multiples below `stop`. -/
def arange0 (stop step : Int) : List Int :=
  if 0 < stop then
    (List.range ((stop + step - 1).fdiv step).toNat).map fun k : Nat => (k : Int) * step
  else []

/-- Embeds line 198: the start offsets of the full shards,
`jnp.arange(0, in_size - shard_size + 1, shard_size)`. -/
def slice_starts (in_size shard_size : Int) : List Int :=
  arange0 (in_size - shard_size + 1) shard_size

/-- The guard of line 205: `hk.scan` over the full shards runs exactly
when `slice_starts` is non-empty. -/
def scan_invoked (in_size shard_size : Int) : Bool :=
  0 < (slice_starts in_size shard_size).length

/-- The (start, size) pairs of all shard executions performed by
`mapped_fn`, in execution order: the full shards of line 206 followed by
the remainder shard of lines 208-210 when `last_shard_size` differs from
`shard_size`. -/
def executed_shards (in_size shard_size : Int) : List (Int × Int) :=
  (slice_starts in_size shard_size).map (fun i => (i, shard_size)) ++
    (if last_shard_size in_size shard_size ≠ shard_size then
      [(in_size - last_shard_size in_size shard_size,
        last_shard_size in_size shard_size)]
    else [])

/-- Embeds the slicing step of `apply_fun_to_slice` (lines 150-157): each
argument leaf is sliced along its mapped axis, PROXY leaves pass through
whole. -/
def input_slice (args : List (Arr α)) (in_axes : List Axis)
    (slice_start slice_size : Int) : List (Arr α) :=
  (args.zip in_axes).map fun p => maybe_slice p.1 slice_start slice_size.toNat p.2

/-- Embeds `apply_fun_to_slice` (lines 150-158). -/
def apply_fun_to_slice (f : List (Arr α) → Arr β) (args : List (Arr α))
    (in_axes : List Axis) (slice_start slice_size : Int) : Arr β :=
  f (input_slice args in_axes slice_start slice_size)

/-- Embeds `mapped_fn` (lines 137-212) for a single output leaf.

The flat argument list stands for the argument pytree; `in_axes` is the
flat axis specification and `out_axes` the axis of the output leaf.  The size
bookkeeping (lines 141-148), the shape probe (lines 160-182, realised
here as length computations since the embedded functions are pure), the
zero-filled buffer (lines 200-203), the scan over the full shards (lines
194-206) and the conditional remainder shard (lines 208-210) follow the
source line by line.  A `none` result models a raised Python exception:
`max` of an empty size list (line 142), or an output axis left as the
PROXY sentinel, which the host framework rejects at the first slice
write; the check is hoisted before the loop because the output axis is
loop-invariant and at least one shard executes whenever a batch size
exists. -/
def mapped_fn [Zero β] (f : List (Arr α) → Arr β) (shard_size : Nat)
    (in_axes : List (Option Nat)) (out_axes : Option Nat)
    (args : List (Arr α)) : Option (Arr β) :=
  let in_axes_ := expand_axes in_axes
  let in_sizes := (args.zip in_axes_).map fun p => maybe_get_size p.1 p.2
  match in_sizes.max? with
  | none => none
  | some in_size =>
    let s : Int := (shard_size : Int)
    let extra := num_extra_shards in_size s
    let last := last_shard_size in_size s
    let remainder_out_len : Nat :=
      (apply_fun_to_slice f args in_axes_ 0 last).length
    let out_len : Nat :=
      if 0 < extra then
        (apply_fun_to_slice f args in_axes_ 0 s).length * extra.toNat
          + remainder_out_len
      else remainder_out_len
    match expand_axes1 out_axes with
    | Axis.proxy => none
    | Axis.ax _ =>
      let compute_shard := fun (outputs : Arr β) (slice_start slice_size : Int) =>
        dynamic_update_slice_in_dim outputs
          (apply_fun_to_slice f args in_axes_ slice_start slice_size) slice_start
      let outputs0 : Arr β := List.replicate out_len (0 : β)
      let starts := slice_starts in_size s
      let outputs1 :=
        if 0 < starts.length then starts.foldl (fun o i => compute_shard o i s) outputs0
        else outputs0
      some (if last ≠ s then compute_shard outputs1 (in_size - last) last else outputs1)

/-- The two shapes a value returned by `sharded_apply` can take: the
wrapped function handed back unchanged (line 133), or the `mapped_fn`
closure (line 214). -/
inductive ApplyFn (α β : Type) where
  | direct (f : List (Arr α) → Arr β)
  | mapped (f : List (Arr α) → Option (Arr β))

/-- Embeds `sharded_apply` (lines 97-214): the `new_out_axes` rejection
of lines 129-130 comes first, then the `shard_size is None` passthrough
of lines 132-133, otherwise the `mapped_fn` closure is built. -/
def sharded_apply [Zero β] (f : List (Arr α) → Arr β) (shard_size : Option Nat)
    (in_axes : List (Option Nat)) (out_axes : Option Nat) (new_out_axes : Bool) :
    Except String (ApplyFn α β) :=
  if new_out_axes then Except.error "New output axes not yet implemented."
  else
    match shard_size with
    | none => Except.ok (ApplyFn.direct f)
    | some s => Except.ok (ApplyFn.mapped (mapped_fn f s in_axes out_axes))

/-- Calls the function produced by `sharded_apply` on an argument list. -/
def run_sharded_apply [Zero β] (f : List (Arr α) → Arr β) (shard_size : Option Nat)
    (in_axes : List (Option Nat)) (out_axes : Option Nat) (new_out_axes : Bool)
    (args : List (Arr α)) : Except String (Option (Arr β)) :=
  match sharded_apply f shard_size in_axes out_axes new_out_axes with
  | Except.error e => Except.error e
  | Except.ok (ApplyFn.direct g) => Except.ok (some (g args))
  | Except.ok (ApplyFn.mapped g) => Except.ok (g args)

/-- The resolution of lines 232-233: a `None` output subbatch dimension
is rewritten to the input subbatch dimension before delegating to
`sharded_apply`. -/
def inference_subbatch_out_dim (input_subbatch_dim : Nat) :
    Option Nat → Nat
  | none => input_subbatch_dim
  | some d => d

/-- Embeds `run_module` (lines 235-238): the batched arguments are
concatenated with the captured non-batched arguments and handed to the
module. -/
def run_module (module : List (Arr α) → Arr β) (nonbatched_args : List (Arr α))
    (batched_args : List (Arr α)) : Arr β :=
  module (batched_args ++ nonbatched_args)

/-- Embeds `inference_subbatch` (lines 217-248): the emptiness assertion
of line 226 first, then the initialization-mode direct call of lines
228-230, then the output-dimension default resolution and the delegation
to `sharded_apply` with the scalar input dimension broadcast over all
batched arguments. -/
def inference_subbatch [Zero β] (module : List (Arr α) → Arr β)
    (subbatch_size : Nat) (batched_args nonbatched_args : List (Arr α))
    (running_init : Bool) (input_subbatch_dim : Nat)
    (output_subbatch_dim : Option Nat) : Except String (Option (Arr β)) :=
  if 0 < batched_args.length then
    if running_init then
      Except.ok (some (module (batched_args ++ nonbatched_args)))
    else
      let out_dim := inference_subbatch_out_dim input_subbatch_dim output_subbatch_dim
      Except.ok (mapped_fn (run_module module nonbatched_args) subbatch_size
        (List.replicate batched_args.length (some input_subbatch_dim))
        (some out_dim) batched_args)
  else Except.error "assert len(batched_args) > 0"

/-- A pure per-element function lifted to the full-batch vectorized form:
the oracle of the refinement property.  On the single-argument calls of
this development it maps `g` over the one argument array. -/
def vectorize (g : α → β) : List (Arr α) → Arr β :=
  fun ls => (ls.headD []).map g


/-- Cast lemma: Python modulo on naturals. -/
theorem emod_natCast (a b : Nat) : (a : Int).emod (b : Int) = ((a % b : Nat) : Int) := by
  simp [Int.emod]

/-- Cast lemma: Python floor division on naturals. -/
theorem fdiv_natCast (a b : Nat) : (a : Int).fdiv (b : Int) = ((a / b : Nat) : Int) :=
  (Int.ofNat_fdiv a b).symm

/-- Dividing the predecessor: the quotient drops by one exactly at multiples. -/
theorem pred_div (n s : Nat) (hn : 1 ≤ n) :
    (n - 1) / s = if s ∣ n then n / s - 1 else n / s := by
  obtain ⟨m, rfl⟩ := Nat.exists_eq_add_of_le hn
  simp only [Nat.add_sub_cancel_left]
  rw [show 1 + m = m + 1 by omega, Nat.succ_div]
  by_cases h : s ∣ m + 1 <;> simp [h]

theorem num_extra_shards_natCast (n s : Nat) (hn : 1 ≤ n) :
    num_extra_shards (n : Int) (s : Int) = (((n - 1) / s : Nat) : Int) := by
  unfold num_extra_shards
  rw [show ((n : Int) - 1) = ((n - 1 : Nat) : Int) by omega, fdiv_natCast]

theorem last_shard_size_natCast (n s : Nat) :
    last_shard_size (n : Int) (s : Int)
      = (((if n % s = 0 then s else n % s) : Nat) : Int) := by
  unfold last_shard_size
  rw [emod_natCast]
  by_cases h : n % s = 0
  · simp [h]
  · rw [if_neg (by exact_mod_cast h), if_neg h]

/-- Nat-level core of the shard-plan identity. -/
theorem shard_plan_nat (b s : Nat) (hb : 1 ≤ b) (hs : 1 ≤ s) :
    ((b - 1) / s) * s + (if b % s = 0 then s else b % s) = b := by
  rw [pred_div b s hb]
  by_cases h : b % s = 0
  · have hdvd : s ∣ b := Nat.dvd_of_mod_eq_zero h
    rw [if_pos hdvd, if_pos h]
    obtain ⟨q, rfl⟩ := hdvd
    have hq : 1 ≤ q := by
      rcases Nat.eq_zero_or_pos q with h0 | h1
      · subst h0; simp at hb
      · exact h1
    rw [Nat.mul_div_cancel_left q hs]
    obtain ⟨q', rfl⟩ := Nat.exists_eq_add_of_le hq
    rw [show 1 + q' - 1 = q' by omega]
    ring
  · rw [if_neg (fun hd => by
      obtain ⟨q, rfl⟩ := hd
      exact h (Nat.mul_mod_right s q)), if_neg h]
    exact Nat.div_add_mod' b s

/-- Claim C2: for every batch size b at least 1 and shard size s at
least 1, the plan computed inside mapped_fn satisfies
b = num_extra_shards * s + last_shard_size with 0 < last_shard_size and
last_shard_size at most s; when s divides b the last shard size equals s
(no zero-size shard); and num_extra_shards equals the ceiling of b / s
minus one when b exceeds s, and 0 otherwise. -/
theorem C2_shard_plan_invariants (b s : Nat) (hb : 1 ≤ b) (hs : 1 ≤ s) :
    num_extra_shards (b : Int) (s : Int) * (s : Int)
        + last_shard_size (b : Int) (s : Int) = (b : Int) ∧
    0 < last_shard_size (b : Int) (s : Int) ∧
    last_shard_size (b : Int) (s : Int) ≤ (s : Int) ∧
    (b % s = 0 → last_shard_size (b : Int) (s : Int) = (s : Int)) ∧
    (s < b → num_extra_shards (b : Int) (s : Int)
        = ((b : Int) + (s : Int) - 1).fdiv (s : Int) - 1) ∧
    (b ≤ s → num_extra_shards (b : Int) (s : Int) = 0) := by
  rw [num_extra_shards_natCast b s hb, last_shard_size_natCast b s]
  refine ⟨?_, ?_, ?_, ?_, ?_, ?_⟩
  · exact_mod_cast shard_plan_nat b s hb hs
  · by_cases h : b % s = 0
    · rw [if_pos h]; exact_mod_cast hs
    · rw [if_neg h]
      have : 0 < b % s := Nat.pos_of_ne_zero h
      exact_mod_cast this
  · by_cases h : b % s = 0
    · rw [if_pos h]
    · rw [if_neg h]
      have : b % s ≤ s := le_of_lt (Nat.mod_lt b hs)
      exact_mod_cast this
  · intro h; rw [if_pos h]
  · intro _
    rw [show ((b : Int) + (s : Int) - 1) = ((b + s - 1 : Nat) : Int) by omega,
      fdiv_natCast]
    have : (b + s - 1) / s = (b - 1) / s + 1 := by
      rw [show b + s - 1 = (b - 1) + s by omega, Nat.add_div_right _ hs]
    rw [this]
    push_cast
    ring
  · intro h
    have : (b - 1) / s = 0 := Nat.div_eq_of_lt (by omega)
    rw [this]
    rfl

/-- Witness for claim C2 at batch size 10 and shard size 3. -/
theorem C2_witness :
    (1 ≤ 10 ∧ 1 ≤ 3) ∧
    (num_extra_shards (10 : Int) (3 : Int) * (3 : Int)
        + last_shard_size (10 : Int) (3 : Int) = ((10 : Nat) : Int) ∧
    0 < last_shard_size (10 : Int) (3 : Int) ∧
    last_shard_size (10 : Int) (3 : Int) ≤ (3 : Int) ∧
    ((10 : Nat) % 3 = 0 → last_shard_size (10 : Int) (3 : Int) = (3 : Int)) ∧
    (3 < 10 → num_extra_shards (10 : Int) (3 : Int)
        = ((10 : Int) + (3 : Int) - 1).fdiv (3 : Int) - 1) ∧
    ((10 : Nat) ≤ 3 → num_extra_shards (10 : Int) (3 : Int) = 0)) :=
  ⟨⟨by decide, by decide⟩,
    by exact_mod_cast C2_shard_plan_invariants 10 3 (by decide) (by decide)⟩

/-- Amended claim C4: when the batch size is strictly below the shard
size there are zero full shards, the sequential scan is skipped, and the
whole batch is processed as a single remainder shard; when the batch size
equals the shard size the batch is processed as one full shard through
the scan, with no remainder shard. -/
theorem C4_amended_batch_lt_shard (b s : Int) (hb : 1 ≤ b) :
    (b < s → scan_invoked b s = false ∧ slice_starts b s = [] ∧
      executed_shards b s = [(0, b)]) ∧
    (b = s → scan_invoked b s = true ∧ executed_shards b s = [(0, s)]) := by
  constructor
  · intro hlt
    have hstarts : slice_starts b s = [] := by
      unfold slice_starts arange0
      rw [if_neg (by omega)]
    have hlast : last_shard_size b s = b := by
      unfold last_shard_size
      rw [show b.emod s = b % s from rfl, Int.emod_eq_of_lt (by omega) hlt,
        if_neg (by omega)]
    refine ⟨?_, hstarts, ?_⟩
    · unfold scan_invoked
      rw [hstarts]
      rfl
    · unfold executed_shards
      rw [hstarts, hlast, if_pos (show b ≠ s by omega)]
      simp
  · intro heq
    subst heq
    have hs : 1 ≤ b := hb
    have hstarts : slice_starts b b = [0] := by
      unfold slice_starts arange0
      rw [if_pos (by omega), show (b - b + 1 + b - 1) = b by ring,
        Int.fdiv_eq_ediv _ (by omega), Int.ediv_self (by omega)]
      rw [show ((1 : Int)).toNat = 1 from rfl, show List.range 1 = [0] from rfl]
      simp
    have hlast : last_shard_size b b = b := by
      unfold last_shard_size
      rw [show b.emod b = b % b from rfl, Int.emod_self, if_pos rfl]
    refine ⟨?_, ?_⟩
    · unfold scan_invoked
      rw [hstarts]
      rfl
    · unfold executed_shards
      rw [hstarts, hlast, if_neg (show ¬b ≠ b by omega)]
      simp

/-- Witness for amended claim C4 at batch size 2 and shard size 3. -/
theorem C4_witness :
    ((1 : Int) ≤ 2) ∧
    (((2 : Int) < 3 → scan_invoked 2 3 = false ∧ slice_starts 2 3 = [] ∧
        executed_shards 2 3 = [(0, 2)]) ∧
      ((2 : Int) = 3 → scan_invoked 2 3 = true ∧ executed_shards 2 3 = [(0, 3)])) :=
  ⟨by decide, C4_amended_batch_lt_shard 2 3 (by decide)⟩

/-- Amended claim C6: with a well-formed axis specification, a call to
the mapped function fails (the max over leaf sizes is undefined) exactly
when the argument tree has no leaves at all; argument leaves that all
carry the broadcast marker do not make the call fail. -/
theorem C6_amended_fail_iff_no_leaves [Zero β] (f : List (Arr α) → Arr β) (s : Nat)
    (axes : List (Option Nat)) (d : Nat) (args : List (Arr α))
    (hlen : axes.length = args.length) :
    (mapped_fn f s axes (some d) args = none ↔ args = []) := by
  cases hargs : args with
  | nil => simp [mapped_fn]
  | cons a as =>
    subst hargs
    cases haxes : axes with
    | nil => rw [haxes] at hlen; simp at hlen
    | cons b bs =>
      subst haxes
      constructor
      · intro h
        simp only [mapped_fn, expand_axes, List.map_cons, List.zip_cons_cons,
          List.max?] at h
        cases h
      · intro h
        cases h

/-- Witness for amended claim C6 at a concrete one-leaf call. -/
theorem C6_witness :
    ([(some 0 : Option Nat)].length = [[(1 : Int)]].length) ∧
    (mapped_fn (fun ls => ls.headD []) 1 [(some 0 : Option Nat)] (some 0)
        [[(1 : Int)]] = none ↔ [[(1 : Int)]] = ([] : List (Arr Int))) :=
  ⟨rfl, C6_amended_fail_iff_no_leaves (fun ls => ls.headD []) 1 [some 0] 0
    [[(1 : Int)]] rfl⟩

/-- Claim C9: an axis entry of None is rewritten to the broadcast
sentinel by the axis normalizer, and for every slice offset and size the
argument list handed to the wrapped function carries that leaf unmodified
and in full, so every shard invocation sees the identical array. -/
theorem C9_broadcast_passthrough (args : List (Arr α)) (axes : List (Option Nat))
    (j : Nat) (hlen : axes.length = args.length) (hj : axes[j]? = some none)
    (i size : Int) :
    (expand_axes axes)[j]? = some Axis.proxy ∧
    (input_slice args (expand_axes axes) i size)[j]? = args[j]? := by
  have hjlt : j < axes.length := by
    by_contra h
    rw [List.getElem?_eq_none (by omega)] at hj
    cases hj
  have hjargs : j < args.length := hlen ▸ hjlt
  have haxj : axes[j] = none := by
    rw [List.getElem?_eq_getElem hjlt] at hj
    exact Option.some.inj hj
  have hjb : j < (expand_axes axes).length := by
    simpa [expand_axes] using hjlt
  have hexp : (expand_axes axes)[j] = Axis.proxy := by
    simp [expand_axes, haxj]
  constructor
  · rw [List.getElem?_eq_getElem hjb, hexp]
  · have hzlt : j < (args.zip (expand_axes axes)).length := by
      simp [expand_axes]
      omega
    rw [List.getElem?_eq_getElem hjargs]
    unfold input_slice
    rw [List.getElem?_eq_getElem (by simpa using hzlt)]
    congr 1
    rw [List.getElem_map, List.getElem_zip, hexp]
    rfl

/-- Witness for claim C9 at a concrete two-leaf argument list whose
second leaf is broadcast. -/
theorem C9_witness :
    ([(some 0 : Option Nat), none].length = [[(1 : Int), 2], [3]].length) ∧
    ([(some 0 : Option Nat), none][1]? = some none) ∧
    ((expand_axes [some 0, none])[1]? = some Axis.proxy ∧
      (input_slice [[(1 : Int), 2], [3]] (expand_axes [some 0, none]) 1 1)[1]?
        = [[(1 : Int), 2], [3]][1]?) :=
  ⟨rfl, rfl, C9_broadcast_passthrough [[(1 : Int), 2], [3]] [some 0, none] 1 rfl rfl 1 1⟩


/-- An in-bounds dynamic slice is a plain drop-then-take. -/
theorem dynamic_slice_in_bounds (x : Arr α) (m c : Nat) (h : m + c ≤ x.length) :
    dynamic_slice_in_dim x (m : Int) c = (x.drop m).take c := by
  unfold dynamic_slice_in_dim
  congr 2
  omega

/-- A dynamic slice of the batch head is a plain take. -/
theorem dynamic_slice_zero (x : Arr α) (c : Nat) (h : c ≤ x.length) :
    dynamic_slice_in_dim x 0 c = x.take c := by
  unfold dynamic_slice_in_dim
  rw [show (max 0 (min (0 : Int) ((x.length : Int) - (c : Int)))).toNat = 0 by omega,
    List.drop_zero]

/-- Writing the mapped slice [m, m+c) into a buffer whose first m positions
already hold the mapped prefix extends the agreement to m+c positions. -/
theorem write_step [Zero β] (g : α → β) (x : Arr α) (m c : Nat)
    (hmc : m + c ≤ x.length) :
    dynamic_update_slice_in_dim
      ((x.take m).map g ++ List.replicate (x.length - m) (0 : β))
      ((dynamic_slice_in_dim x (m : Int) c).map g) (m : Int)
    = (x.take (m + c)).map g ++ List.replicate (x.length - (m + c)) (0 : β) := by
  have hm : m ≤ x.length := by omega
  rw [dynamic_slice_in_bounds x m c hmc]
  have hA : ((x.take m).map g).length = m := by
    simp [List.length_take]
    omega
  have hU : (((x.drop m).take c).map g).length = c := by
    simp [List.length_take]
    omega
  have hB : ((x.take m).map g ++ List.replicate (x.length - m) (0 : β)).length
      = x.length := by
    simp [List.length_take]
    omega
  unfold dynamic_update_slice_in_dim
  rw [hB, hU]
  rw [show (max 0 (min (m : Int) ((x.length : Int) - (c : Int)))).toNat = m by omega]
  rw [List.take_left' hA, ← List.drop_drop, List.drop_left' hA, List.drop_replicate]
  rw [List.take_add, List.map_append]
  congr 2
  omega

/-- Folding the full shards fills the first F*s buffer positions. -/
theorem fold_full_shards [Zero β] (g : α → β) (x : Arr α) (s : Nat) (F : Nat)
    (hF : F * s ≤ x.length) :
    ((List.range F).map (fun k => ((k * s : Nat) : Int))).foldl
      (fun o i => dynamic_update_slice_in_dim o
        ((dynamic_slice_in_dim x i s).map g) i)
      (List.replicate x.length (0 : β))
    = (x.take (F * s)).map g ++ List.replicate (x.length - F * s) (0 : β) := by
  induction F with
  | zero => simp
  | succ F ih =>
    have hstep : F * s + s ≤ x.length := by
      rw [Nat.succ_mul] at hF
      exact hF
    have hF' : F * s ≤ x.length := by omega
    rw [List.range_succ, List.map_append, List.foldl_append, ih hF']
    simp only [List.map_cons, List.map_nil, List.foldl_cons, List.foldl_nil]
    rw [Nat.succ_mul]
    exact write_step g x (F * s) s hstep

/-- The full-shard start offsets on a batch of n with shard size s are the
first n / s multiples of s. -/
theorem slice_starts_natCast (n s : Nat) :
    slice_starts (n : Int) (s : Int)
      = (List.range (n / s)).map (fun k => ((k * s : Nat) : Int)) := by
  unfold slice_starts arange0
  by_cases h : s ≤ n
  · rw [if_pos (by omega)]
    rw [show ((n : Int) - (s : Int) + 1 + (s : Int) - 1) = (n : Int) by ring,
      fdiv_natCast, Int.toNat_natCast]
    refine List.map_congr_left fun k _ => ?_
    push_cast
    ring
  · rw [if_neg (by omega), Nat.div_eq_of_lt (by omega)]
    simp

/-- Applying the vectorized function to a slice of the single mapped
argument maps g over that slice. -/
theorem apply_vectorize (g : α → β) (x : Arr α) (i sz : Int) :
    apply_fun_to_slice (vectorize g) [x] [Axis.ax 0] i sz
      = (dynamic_slice_in_dim x i sz.toNat).map g := rfl


/-- Definitional characterization of mapped_fn on a single mapped
argument with axis 0: the size bookkeeping collapses to the
argument length. -/
theorem mapped_fn_single_char [Zero β] (f : List (Arr α) → Arr β) (s : Nat)
    (d : Nat) (x : Arr α) :
    mapped_fn f s [some 0] (some d) [x]
      = some (
        let n : Int := (x.length : Int)
        let ss : Int := (s : Int)
        let last := last_shard_size n ss
        let rol := (apply_fun_to_slice f [x] [Axis.ax 0] 0 last).length
        let out_len := if 0 < num_extra_shards n ss then
            (apply_fun_to_slice f [x] [Axis.ax 0] 0 ss).length
              * (num_extra_shards n ss).toNat + rol
          else rol
        let o1 := if 0 < (slice_starts n ss).length then
            (slice_starts n ss).foldl
              (fun o i => dynamic_update_slice_in_dim o
                (apply_fun_to_slice f [x] [Axis.ax 0] i ss) i)
              (List.replicate out_len 0)
          else List.replicate out_len 0
        if last ≠ ss then
          dynamic_update_slice_in_dim o1
            (apply_fun_to_slice f [x] [Axis.ax 0] (n - last) last) (n - last)
        else o1) := rfl


/-- The scan guard is semantically transparent: folding an empty start
list is the identity. -/
theorem ite_foldl_empty {γ δ : Type} (l : List γ) (step : δ → γ → δ) (init : δ) :
    (if 0 < l.length then l.foldl step init else init) = l.foldl step init := by
  cases l
  · simp
  · rw [if_pos (by simp)]

theorem mapped_fn_vectorized [Zero β] (g : α → β) (x : Arr α) (s : Nat)
    (hs : 1 ≤ s) (hx : 1 ≤ x.length) :
    mapped_fn (vectorize g) s [some 0] (some 0) [x] = some (x.map g) := by
  rw [mapped_fn_single_char]
  simp only [apply_vectorize, Int.toNat_natCast, slice_starts_natCast,
    ite_foldl_empty]
  by_cases hmod : x.length % s = 0
  · have hdvd : s ∣ x.length := Nat.dvd_of_mod_eq_zero hmod
    have hsn : s ≤ x.length := Nat.le_of_dvd (by omega) hdvd
    have hFs : x.length / s * s = x.length := Nat.div_mul_cancel hdvd
    have hlast : last_shard_size (x.length : Int) (s : Int) = (s : Int) := by
      rw [last_shard_size_natCast, if_pos hmod]
    have hextra : num_extra_shards (x.length : Int) (s : Int)
        = ((x.length / s - 1 : Nat) : Int) := by
      rw [num_extra_shards_natCast _ s hx, pred_div _ s hx, if_pos hdvd]
    simp only [hlast, hextra, Int.toNat_natCast, dynamic_slice_zero x s hsn]
    rw [if_neg (show ¬((s : Int) ≠ (s : Int)) from fun h => h rfl)]
    have hlen_s : (List.map g (List.take s x)).length = s := by
      simp [List.length_take]
      omega
    have hout : (if 0 < ((x.length / s - 1 : Nat) : Int) then
        (List.map g (List.take s x)).length * (x.length / s - 1)
          + (List.map g (List.take s x)).length
      else (List.map g (List.take s x)).length) = x.length := by
      rw [hlen_s]
      by_cases h2 : 0 < x.length / s - 1
      · rw [if_pos (by exact_mod_cast h2)]
        obtain ⟨q, hq⟩ : ∃ q, x.length / s = q + 1 := ⟨x.length / s - 1, by omega⟩
        rw [hq] at hFs ⊢
        rw [show q + 1 - 1 = q by omega, ← hFs]
        ring
      · rw [if_neg (by exact_mod_cast h2)]
        have h1 : x.length / s = 1 := by
          have : 0 < x.length / s := Nat.div_pos hsn (by omega)
          omega
        rw [h1, one_mul] at hFs
        omega
    rw [hout, fold_full_shards g x s (x.length / s) (le_of_eq hFs), hFs]
    simp [List.take_length]
  · have hnd : ¬ s ∣ x.length := fun hd => by
      obtain ⟨q, hq⟩ := hd
      rw [hq] at hmod
      exact hmod (Nat.mul_mod_right s q)
    have hrlt : x.length % s < s := Nat.mod_lt _ (by omega)
    have hrn : x.length % s ≤ x.length := Nat.mod_le _ _
    have hlast : last_shard_size (x.length : Int) (s : Int)
        = ((x.length % s : Nat) : Int) := by
      rw [last_shard_size_natCast, if_neg hmod]
    have hextra : num_extra_shards (x.length : Int) (s : Int)
        = ((x.length / s : Nat) : Int) := by
      rw [num_extra_shards_natCast _ s hx, pred_div _ s hx, if_neg hnd]
    simp only [hlast, hextra, Int.toNat_natCast,
      dynamic_slice_zero x (x.length % s) hrn]
    rw [if_pos (show ((x.length % s : Nat) : Int) ≠ (s : Int) by
      exact_mod_cast Nat.ne_of_lt hrlt)]
    have hsub : x.length - x.length % s = x.length / s * s :=
      (Nat.sub_eq_iff_eq_add hrn).mpr (Nat.div_add_mod' x.length s).symm
    have hlen_r : (List.map g (List.take (x.length % s) x)).length
        = x.length % s := by
      simp [List.length_take]
      omega
    have hout : (if 0 < ((x.length / s : Nat) : Int) then
        (List.map g (dynamic_slice_in_dim x 0 s)).length * (x.length / s)
          + (List.map g (List.take (x.length % s) x)).length
      else (List.map g (List.take (x.length % s) x)).length) = x.length := by
      rw [hlen_r]
      by_cases hsn : s ≤ x.length
      · rw [if_pos (by exact_mod_cast Nat.div_pos hsn (by omega)),
          dynamic_slice_zero x s hsn]
        have hls : (List.map g (List.take s x)).length = s := by
          simp [List.length_take]
          omega
        rw [hls]
        exact Nat.div_add_mod x.length s
      · have h0 : x.length / s = 0 := Nat.div_eq_of_lt (by omega)
        rw [h0, if_neg (by norm_num), Nat.mod_eq_of_lt (by omega)]
    rw [hout]
    rw [fold_full_shards g x s (x.length / s)
      (by rw [← hsub]; exact Nat.sub_le _ _)]
    rw [← Nat.cast_sub hrn, hsub]
    rw [write_step g x (x.length / s * s) (x.length % s)
      (le_of_eq (Nat.div_add_mod' x.length s))]
    rw [Nat.div_add_mod' x.length s]
    simp [List.take_length]

/-- Claim C1: for every pure elementwise function g, every argument
array with batch size at least 1 along the mapped axis and every shard
size at least 1 (evenly or unevenly dividing the batch), applying the
function returned by sharded_apply equals the direct full-batch
vectorized application, element for element. -/
theorem C1_sharded_apply_eq_full_batch [Zero β] (g : α → β) (x : Arr α) (s : Nat)
    (hs : 1 ≤ s) (hx : 1 ≤ x.length) :
    run_sharded_apply (vectorize g) (some s) [some 0] (some 0) false [x]
      = Except.ok (some (vectorize g [x])) := by
  show Except.ok (mapped_fn (vectorize g) s [some 0] (some 0) [x]) = _
  rw [mapped_fn_vectorized g x s hs hx]
  rfl

/-- Witness for claim C1: batch size 5 with the unevenly dividing shard
size 2, evaluated to the concrete output. -/
theorem C1_witness :
    run_sharded_apply (vectorize (fun t : Int => t + 1)) (some 2) [some 0] (some 0)
        false [[1, 2, 3, 4, 5]]
      = Except.ok (some [2, 3, 4, 5, 6]) :=
  C1_sharded_apply_eq_full_batch (fun t : Int => t + 1) [1, 2, 3, 4, 5] 2
    (by decide) (by decide)

/-- Claim C3: for batch size 10 with shard size 3 the executor performs
exactly three full shards at offsets 0, 3, 6 of size 3 followed by one
remainder shard of size 1 at offset 9, the partition
[0,3) [3,6) [6,9) [9,10); for batch size 9 with shard size 3 it performs
exactly three shards of size 3 with no remainder shard. -/
theorem C3_shard_partition_10_3_and_9_3 :
    executed_shards 10 3 = [(0, 3), (3, 3), (6, 3), (9, 1)] ∧
    executed_shards 9 3 = [(0, 3), (3, 3), (6, 3)] := by
  constructor <;> decide

/-- Counterexample to claim C4: at batch size 3 equal to shard size 3 the
scan over full shards is invoked (with the one full shard [0,3)) and the
batch is not processed as a remainder shard, refuting the claim that for
every batch size at most the shard size there are zero full shards and
the sequential loop is skipped. -/
theorem C4_counterexample :
    (3 : Int) ≤ 3 ∧ scan_invoked 3 3 = true ∧ executed_shards 3 3 = [(0, 3)] := by
  refine ⟨le_refl 3, ?_, ?_⟩ <;> decide

/-- Claim C5: requesting new output axes raises the not-implemented error
immediately and unconditionally, for every wrapped function and every
shard size (including the None passthrough), before any shard executes
and before the function is invoked even once. -/
theorem C5_new_out_axes_error [Zero β] (f : List (Arr α) → Arr β)
    (shard_size : Option Nat) (in_axes : List (Option Nat)) (out_axes : Option Nat) :
    sharded_apply f shard_size in_axes out_axes true
      = Except.error "New output axes not yet implemented." := rfl

/-- Witness for claim C5 at a concrete function and configuration. -/
theorem C5_witness :
    sharded_apply (vectorize (fun t : Int => t)) (some 2) [some 0] (some 0) true
      = Except.error "New output axes not yet implemented." :=
  C5_new_out_axes_error (vectorize (fun t : Int => t)) (some 2) [some 0] (some 0)

/-- Counterexample to claim C6: a call whose single argument leaf carries
the broadcast marker does not fail; the size list is [-1], its maximum is
-1, and the call runs to completion returning the untouched zero buffer. -/
theorem C6_counterexample :
    (mapped_fn (fun ls => ls.headD []) 1 [(none : Option Nat)] (some 0)
        [[(5 : Int)]]).isSome = true ∧
    mapped_fn (fun ls => ls.headD []) 1 [(none : Option Nat)] (some 0) [[(5 : Int)]]
      = some [0] := by
  constructor <;> decide

/-- Claim C7: a call to inference_subbatch with an empty batched argument
sequence fails the length assertion immediately, for every module, every
mode flag and every axis configuration, so the module is never invoked. -/
theorem C7_empty_batched_args_error [Zero β] (module : List (Arr α) → Arr β)
    (subbatch_size : Nat) (nonbatched_args : List (Arr α)) (running_init : Bool)
    (input_subbatch_dim : Nat) (output_subbatch_dim : Option Nat) :
    inference_subbatch module subbatch_size [] nonbatched_args running_init
        input_subbatch_dim output_subbatch_dim
      = Except.error "assert len(batched_args) > 0" := rfl

/-- Witness for claim C7 at a concrete module in initialization mode. -/
theorem C7_witness :
    inference_subbatch (vectorize (fun t : Int => t)) 4 [] [[1, 2]] true 0 none
      = Except.error "assert len(batched_args) > 0" :=
  C7_empty_batched_args_error (vectorize (fun t : Int => t)) 4 [[1, 2]] true 0 none

/-- Claim C8: sharded_apply with shard size None returns the wrapped
function itself unchanged, with no wrapping, for every function. -/
theorem C8_shard_size_none_identity [Zero β] (f : List (Arr α) → Arr β)
    (in_axes : List (Option Nat)) (out_axes : Option Nat) :
    sharded_apply f none in_axes out_axes false = Except.ok (ApplyFn.direct f) := rfl

/-- Witness for claim C8 at a concrete function. -/
theorem C8_witness :
    sharded_apply (vectorize (fun t : Int => t + 1)) none [some 0] (some 0) false
      = Except.ok (ApplyFn.direct (vectorize (fun t : Int => t + 1))) :=
  C8_shard_size_none_identity (vectorize (fun t : Int => t + 1)) [some 0] (some 0)

/-- Claim C10: outside initialization mode, an output subbatch dimension
left as None is rewritten to the input subbatch dimension before
delegating to sharded_apply, so the call behaves exactly as if the input
dimension had been passed for the output. -/
theorem C10_output_dim_default [Zero β] (module : List (Arr α) → Arr β)
    (subbatch_size : Nat) (batched_args nonbatched_args : List (Arr α))
    (input_subbatch_dim : Nat) :
    inference_subbatch_out_dim input_subbatch_dim none = input_subbatch_dim ∧
    inference_subbatch module subbatch_size batched_args nonbatched_args false
        input_subbatch_dim none
      = inference_subbatch module subbatch_size batched_args nonbatched_args false
          input_subbatch_dim (some input_subbatch_dim) :=
  ⟨rfl, rfl⟩

/-- Witness for claim C10 at a concrete module and arguments. -/
theorem C10_witness :
    inference_subbatch_out_dim 0 none = 0 ∧
    inference_subbatch (vectorize (fun t : Int => t * 2)) 2 [[1, 2, 3]] [] false 0 none
      = inference_subbatch (vectorize (fun t : Int => t * 2)) 2 [[1, 2, 3]] [] false 0
          (some 0) :=
  C10_output_dim_default (vectorize (fun t : Int => t * 2)) 2 [[1, 2, 3]] [] 0

end Mapping
